import Mathlib

/-!
Verification of the RCU lock in `src/RcuLock.cpp`.

The C++ class `RcuLock` keeps four shared fields:
`m_epoch` and `m_writing` are `volatile unsigned int` (32-bit, so arithmetic
is modulo 2^32), `m_currentReaders` and `m_nextReaders` are signed atomic
counters that may transiently go negative.  We embed the state as a record
and each member function as a pure function on that record, executed
atomically (statement interleavings inside one call collapse in a
sequential model; the spin loops of `readBegin`/`readEnd` become `none`
when their condition would make the call spin forever with no concurrent
writer).  The writer's `waitForReaders` blocks on a condition variable, so
it is embedded as a relation that allows arbitrary interleaved reader
operations during the drain window.
-/

namespace RcuVerify

/-- Modulus of the C++ `unsigned int` fields (32-bit). -/
def U32 : Nat := 4294967296

/-- The shared state of `RcuLock`: `m_epoch` and `m_writing` are the
`volatile unsigned int` fields, `m_currentReaders` and `m_nextReaders`
the signed atomic reader counters. -/
structure RcuLock where
  m_epoch : Nat
  m_writing : Nat
  m_currentReaders : Int
  m_nextReaders : Int
deriving DecidableEq

/-- The constructor state: `m_epoch(1), m_writing(0), m_currentReaders(0),
m_nextReaders(0)`. -/
def init : RcuLock := ⟨1, 0, 0, 0⟩

/-- `currentEpoch`: `return m_epoch;`. -/
def currentEpoch (s : RcuLock) : Nat := s.m_epoch

/-- `readBegin`: sample `m_writing` and `currentEpoch()`.  If a writer is in
flight (`writing != 0`), increment `m_nextReaders` and return `writing`.
Otherwise spin while `m_writing == 0 && m_nextReaders > 0` (with no
concurrent writer this spins forever, embedded as `none`), then increment
`m_currentReaders` and return the sampled epoch. -/
def readBegin (s : RcuLock) : Option (Nat × RcuLock) :=
  let writing := s.m_writing
  let epoch := currentEpoch s
  if writing ≠ 0 then
    some (writing, { s with m_nextReaders := s.m_nextReaders + 1 })
  else if 0 < s.m_nextReaders then
    none
  else
    some (epoch, { s with m_currentReaders := s.m_currentReaders + 1 })

/-- `readEnd(epoch)`: sample `writing := m_writing`.  If `epoch = writing`,
decrement `m_nextReaders` (the retry branch `writing != m_writing` never
fires in an atomic execution).  Otherwise spin while
`m_writing == 0 && m_nextReaders > 0` (embedded as `none`), then decrement
`m_currentReaders` and, exactly when the decrement reaches zero
(`decreaseAndTest`), notify the waiter; the returned `Bool` records whether
`m_waiter.notify()` was called. -/
def readEnd (s : RcuLock) (epoch : Nat) : Option (RcuLock × Bool) :=
  let writing := s.m_writing
  if epoch = writing then
    some ({ s with m_nextReaders := s.m_nextReaders - 1 }, false)
  else if writing = 0 ∧ 0 < s.m_nextReaders then
    none
  else
    let c := s.m_currentReaders - 1
    some ({ s with m_currentReaders := c }, decide (c = 0))

/-- `nextEpoch`: on overflow (`m_epoch == -1`, i.e. `m_epoch = 2^32 - 1`)
set `m_writing := 1` and `m_epoch := 1`; otherwise set
`m_writing := m_epoch + 1` and `++m_epoch`.  Returns the final `m_epoch`
together with the new state. -/
def nextEpoch (s : RcuLock) : Nat × RcuLock :=
  if s.m_epoch = U32 - 1 then
    (1, { s with m_writing := 1, m_epoch := 1 })
  else
    let e := (s.m_epoch + 1) % U32
    (e, { s with m_writing := e, m_epoch := e })

/-- `moveNextToCurrentEpoch` as a single atomic step: `m_writing := 0`,
then capture `next := m_nextReaders`, zero it (`subAndTest(next)` succeeds
on the first iteration in an atomic execution) and `m_currentReaders.add(next)`. -/
def moveNextToCurrentEpoch (s : RcuLock) : RcuLock :=
  { s with m_writing := 0,
           m_nextReaders := 0,
           m_currentReaders := s.m_currentReaders + s.m_nextReaders }

/-- The statement-level trace of `moveNextToCurrentEpoch`: the state before
the call, after `m_writing = 0;`, after `m_nextReaders.subAndTest(next)`
(first loop iteration, which succeeds in an atomic execution), and after
`m_currentReaders.add(next)`. -/
def mergeTrace (s : RcuLock) : List RcuLock :=
  let s1 : RcuLock := { s with m_writing := 0 }
  let next : Int := s1.m_nextReaders
  let s2 : RcuLock := { s1 with m_nextReaders := s1.m_nextReaders - next }
  let s3 : RcuLock := { s2 with m_currentReaders := s2.m_currentReaders + next }
  [s, s1, s2, s3]

/-- Ordering of the merge step as the spec words it (refinement comparison,
written from the spec, not from the source): "capture and zero
`NextReaderCount`, add the captured value into `CurrentReaderCount`, set
`currentEpoch` to the value that was in `TransitionMarker`, then reset
`TransitionMarker` to 0 — in that order".  Consequence: at any point of the
merge where the marker has already been cleared, `NextReaderCount` must
already be zero and the epoch must already hold the old marker value. -/
def claimedMergeOrder (s : RcuLock) : Prop :=
  ∀ t ∈ mergeTrace s, t.m_writing = 0 →
    t.m_nextReaders = 0 ∧ t.m_epoch = s.m_writing

/-- One atomic reader operation on the shared state: a completed
`readBegin` or a completed `readEnd` (with any epoch argument). -/
inductive ReaderStep : RcuLock → RcuLock → Prop
  | rbegin {s t : RcuLock} {e : Nat} :
      readBegin s = some (e, t) → ReaderStep s t
  | rend {s t : RcuLock} {e : Nat} {b : Bool} :
      readEnd s e = some (t, b) → ReaderStep s t

/-- Any finite sequence of reader operations. -/
def ReaderSteps : RcuLock → RcuLock → Prop := Relation.ReflTransGen ReaderStep

/-- One atomic operation on the shared state: a reader operation, or one of
the writer's two sub-steps (`nextEpoch`, `moveNextToCurrentEpoch`). -/
inductive Step : RcuLock → RcuLock → Prop
  | reader {s t : RcuLock} : ReaderStep s t → Step s t
  | announce {s : RcuLock} : Step s (nextEpoch s).2
  | merge {s : RcuLock} : Step s (moveNextToCurrentEpoch s)

/-- States reachable from the constructor state under reader and writer
operations. -/
def Reachable (s : RcuLock) : Prop := Relation.ReflTransGen Step init s

/-- A completed execution of `writeWait` (= `waitForReaders`): snapshot
`readers := m_currentReaders`, run `nextEpoch`, then either skip the wait
(snapshot `≤ 0`) or block on the condition variable until concurrent reader
operations bring `m_currentReaders` to zero, and finally run
`moveNextToCurrentEpoch`.  Reader operations may interleave between the
announce and the merge in both cases; the `Bool` index records whether the
blocking wait was executed. -/
inductive WriteWaitExec : RcuLock → RcuLock → Nat → Bool → Prop
  | noWait {s t u : RcuLock} {e : Nat} :
      s.m_currentReaders ≤ 0 →
      nextEpoch s = (e, t) →
      ReaderSteps t u →
      WriteWaitExec s (moveNextToCurrentEpoch u) e false
  | waited {s t u : RcuLock} {e : Nat} :
      0 < s.m_currentReaders →
      nextEpoch s = (e, t) →
      ReaderSteps t u →
      u.m_currentReaders = 0 →
      WriteWaitExec s (moveNextToCurrentEpoch u) e true

/-! ### Case-analysis lemmas for the embedded operations -/

/-- A successful `readBegin` took exactly one of the two branches of the
source: the writing branch (increment `m_nextReaders`, return the marker)
or the quiescent branch (spin guard false, increment `m_currentReaders`,
return the epoch). -/
theorem readBegin_cases {s t : RcuLock} {e : Nat}
    (h : readBegin s = some (e, t)) :
    (s.m_writing ≠ 0 ∧ e = s.m_writing ∧
      t = { s with m_nextReaders := s.m_nextReaders + 1 }) ∨
    (s.m_writing = 0 ∧ s.m_nextReaders ≤ 0 ∧ e = s.m_epoch ∧
      t = { s with m_currentReaders := s.m_currentReaders + 1 }) := by
  simp only [readBegin, currentEpoch] at h
  split at h
  · rename_i hw
    simp only [Option.some.injEq, Prod.mk.injEq] at h
    exact Or.inl ⟨hw, h.1.symm, h.2.symm⟩
  · rename_i hw
    split at h
    · exact absurd h (by simp)
    · rename_i hn
      simp only [Option.some.injEq, Prod.mk.injEq] at h
      refine Or.inr ⟨by omega, by omega, h.1.symm, h.2.symm⟩

/-- A successful `readEnd` took exactly one of the two branches of the
source: the next-epoch branch (decrement `m_nextReaders`, no notify) or the
current-epoch branch (spin guard false, decrement `m_currentReaders`,
notify exactly when the decrement reaches zero). -/
theorem readEnd_cases {s t : RcuLock} {e : Nat} {b : Bool}
    (h : readEnd s e = some (t, b)) :
    (e = s.m_writing ∧ t = { s with m_nextReaders := s.m_nextReaders - 1 } ∧
      b = false) ∨
    (e ≠ s.m_writing ∧ ¬(s.m_writing = 0 ∧ 0 < s.m_nextReaders) ∧
      t = { s with m_currentReaders := s.m_currentReaders - 1 } ∧
      b = decide (s.m_currentReaders - 1 = 0)) := by
  simp only [readEnd] at h
  split at h
  · rename_i hw
    simp only [Option.some.injEq, Prod.mk.injEq] at h
    exact Or.inl ⟨hw, h.1.symm, h.2.symm⟩
  · rename_i hw
    split at h
    · exact absurd h (by simp)
    · rename_i hn
      simp only [Option.some.injEq, Prod.mk.injEq] at h
      exact Or.inr ⟨hw, hn, h.1.symm, h.2.symm⟩

/-- `nextEpoch` took exactly one of its two branches: the wrap branch
(`m_epoch = 2^32 - 1`, jump to 1) or the increment branch. -/
theorem nextEpoch_cases (s : RcuLock) :
    (s.m_epoch = U32 - 1 ∧
      nextEpoch s = (1, { s with m_writing := 1, m_epoch := 1 })) ∨
    (s.m_epoch ≠ U32 - 1 ∧
      nextEpoch s = ((s.m_epoch + 1) % U32,
        { s with m_writing := (s.m_epoch + 1) % U32,
                 m_epoch := (s.m_epoch + 1) % U32 })) := by
  by_cases hw : s.m_epoch = U32 - 1
  · exact Or.inl ⟨hw, by simp [nextEpoch, hw]⟩
  · exact Or.inr ⟨hw, by simp [nextEpoch, hw]⟩

/-! ### Basic invariants -/

/-- Invariant of the sequential model: the epoch is a nonzero 32-bit value,
and whenever no transition is in flight the next-reader counter is not
positive (so the spin guards of `readBegin`/`readEnd` fall through). -/
def Inv (s : RcuLock) : Prop :=
  s.m_epoch ≠ 0 ∧ s.m_epoch < U32 ∧ (s.m_writing = 0 → s.m_nextReaders ≤ 0)

theorem inv_init : Inv init := by
  refine ⟨?_, ?_, ?_⟩ <;> decide

theorem inv_readerStep {s t : RcuLock} (h : ReaderStep s t) (hi : Inv s) :
    Inv t := by
  obtain ⟨h1, h2, h3⟩ := hi
  cases h with
  | rbegin hb =>
      rcases readBegin_cases hb with ⟨hw, _, ht⟩ | ⟨hw, hn, _, ht⟩ <;> subst ht
      · exact ⟨h1, h2, fun h0 => absurd h0 hw⟩
      · exact ⟨h1, h2, fun _ => hn⟩
  | rend he =>
      rcases readEnd_cases he with ⟨hw, ht, _⟩ | ⟨hw, hn, ht, _⟩ <;> subst ht
      · refine ⟨h1, h2, fun h0 => ?_⟩
        have hle : s.m_nextReaders ≤ 0 := h3 h0
        show s.m_nextReaders - 1 ≤ 0
        omega
      · exact ⟨h1, h2, fun h0 => h3 h0⟩

theorem inv_step {s t : RcuLock} (h : Step s t) (hi : Inv s) : Inv t := by
  obtain ⟨h1, h2, h3⟩ := hi
  cases h with
  | reader hr => exact inv_readerStep hr ⟨h1, h2, h3⟩
  | announce =>
      rcases nextEpoch_cases s with ⟨hw, hn⟩ | ⟨hw, hn⟩ <;> rw [hn]
      · exact ⟨one_ne_zero, by norm_num [U32], fun h0 => absurd h0 one_ne_zero⟩
      · have hlt : s.m_epoch + 1 < U32 := by
          have h32 : U32 = 4294967296 := rfl
          omega
        have hmod : (s.m_epoch + 1) % U32 = s.m_epoch + 1 :=
          Nat.mod_eq_of_lt hlt
        refine ⟨?_, ?_, ?_⟩
        · show (s.m_epoch + 1) % U32 ≠ 0
          omega
        · show (s.m_epoch + 1) % U32 < U32
          omega
        · intro h0
          have h0e : (s.m_epoch + 1) % U32 = 0 := h0
          omega
  | merge =>
      exact ⟨h1, h2, fun _ => le_refl 0⟩

theorem reachable_inv {s : RcuLock} (h : Reachable s) : Inv s := by
  induction h with
  | refl => exact inv_init
  | tail _ hstep ih => exact inv_step hstep ih

/-- Reader operations never change `m_epoch` nor `m_writing`. -/
theorem readerStep_frame {s t : RcuLock} (h : ReaderStep s t) :
    t.m_epoch = s.m_epoch ∧ t.m_writing = s.m_writing := by
  cases h with
  | rbegin hb =>
      rcases readBegin_cases hb with ⟨_, _, ht⟩ | ⟨_, _, _, ht⟩ <;>
        subst ht <;> exact ⟨rfl, rfl⟩
  | rend he =>
      rcases readEnd_cases he with ⟨_, ht, _⟩ | ⟨_, _, ht, _⟩ <;>
        subst ht <;> exact ⟨rfl, rfl⟩

theorem readerSteps_epoch {s t : RcuLock} (h : ReaderSteps s t) :
    t.m_epoch = s.m_epoch := by
  induction h with
  | refl => rfl
  | tail _ hstep ih => exact ((readerStep_frame hstep).1).trans ih

/-- `nextEpoch` stores the epoch it returns in `m_epoch`. -/
theorem nextEpoch_epoch {s t : RcuLock} {e : Nat}
    (h : nextEpoch s = (e, t)) : t.m_epoch = e := by
  rcases nextEpoch_cases s with ⟨_, hn⟩ | ⟨_, hn⟩ <;>
    rw [hn] at h <;>
    simp only [Prod.mk.injEq] at h <;>
    rw [← h.2, ← h.1]

/-! ### The multi-writer system

`writeBegin`/`writeEnd` only lock and unlock `m_mutex`; the `Mutex` class
itself is not part of the repository source. -/

/-- Phase of one writer thread in `write`: before `writeBegin`, between
`writeBegin` and `writeWait`, or between `writeWait` and `writeEnd`. -/
inductive WriterPhase
  | idle
  | locked
  | waited
deriving DecidableEq

/-- Modelled from the spec: the `Mutex` behind WriterSerialization is not
in the repository source; per the spec it is "a mutual-exclusion token
ensuring at most one writer transition is in flight at any time", so the
system state tracks its owner as `Option (Fin n)`: `lock()` blocks until
there is no owner and installs the caller, `unlock()` clears the owner. -/
structure WriterSys (n : Nat) where
  owner : Option (Fin n)
  phase : Fin n → WriterPhase
  lock : RcuLock

/-- Initial system state: mutex free, all writer threads idle, lock state
as built by the constructor. -/
def initSys (n : Nat) : WriterSys n := ⟨none, fun _ => WriterPhase.idle, init⟩

/-- One step of the multi-threaded system: a reader operation by any
thread, or one of the writer calls `writeBegin` (acquire the mutex),
`writeWait` (a completed `waitForReaders`, only possible for the mutex
owner) and `writeEnd` (release the mutex) by writer thread `t`. -/
inductive SysStep {n : Nat} : WriterSys n → WriterSys n → Prop
  | reader {s : WriterSys n} {l : RcuLock} :
      ReaderStep s.lock l →
      SysStep s ⟨s.owner, s.phase, l⟩
  | writeBegin {s : WriterSys n} (t : Fin n) :
      s.owner = none →
      s.phase t = WriterPhase.idle →
      SysStep s ⟨some t, Function.update s.phase t WriterPhase.locked, s.lock⟩
  | writeWait {s : WriterSys n} (t : Fin n) {l : RcuLock} {e : Nat} {w : Bool} :
      s.owner = some t →
      s.phase t = WriterPhase.locked →
      WriteWaitExec s.lock l e w →
      SysStep s ⟨s.owner, Function.update s.phase t WriterPhase.waited, l⟩
  | writeEnd {s : WriterSys n} (t : Fin n) :
      s.owner = some t →
      s.phase t = WriterPhase.waited →
      SysStep s ⟨none, Function.update s.phase t WriterPhase.idle, s.lock⟩

/-- System states reachable from `initSys`. -/
def SysReachable {n : Nat} (s : WriterSys n) : Prop :=
  Relation.ReflTransGen SysStep (initSys n) s

/-- Mutex invariant: any thread that is past `writeBegin` and not yet past
`writeEnd` owns the mutex. -/
def SysInv {n : Nat} (s : WriterSys n) : Prop :=
  ∀ t : Fin n, s.phase t ≠ WriterPhase.idle → s.owner = some t

theorem sysInv_init (n : Nat) : SysInv (initSys n) := by
  intro t ht
  exact absurd rfl ht

theorem sysInv_step {n : Nat} {s u : WriterSys n} (h : SysStep s u)
    (hi : SysInv s) : SysInv u := by
  cases h with
  | reader hr =>
      intro t ht
      exact hi t ht
  | writeBegin t ho hp =>
      intro u hu
      by_cases htu : u = t
      · subst htu
        rfl
      · have hu2 : Function.update s.phase t WriterPhase.locked u ≠
            WriterPhase.idle := hu
        rw [Function.update_noteq htu] at hu2
        have := hi u hu2
        rw [ho] at this
        exact absurd this (by simp)
  | writeWait t ho hp hw =>
      intro u hu
      by_cases htu : u = t
      · subst htu
        exact ho
      · have hu2 : Function.update s.phase t WriterPhase.waited u ≠
            WriterPhase.idle := hu
        rw [Function.update_noteq htu] at hu2
        exact hi u hu2
  | writeEnd t ho hp =>
      intro u hu
      by_cases htu : u = t
      · subst htu
        have hu2 : Function.update s.phase u WriterPhase.idle u ≠
            WriterPhase.idle := hu
        rw [Function.update_same] at hu2
        exact absurd rfl hu2
      · have hu2 : Function.update s.phase t WriterPhase.idle u ≠
            WriterPhase.idle := hu
        rw [Function.update_noteq htu] at hu2
        have := hi u hu2
        rw [ho] at this
        exact absurd (Option.some.inj this).symm htu

theorem sysReachable_inv {n : Nat} {s : WriterSys n} (h : SysReachable s) :
    SysInv s := by
  induction h with
  | refl => exact sysInv_init n
  | tail _ hstep ih => exact sysInv_step hstep ih

/-! ### The claims -/

/-- C1: for every completed writer transition (the announce, drain and
merge of `waitForReaders`, with arbitrary reader operations interleaved
during the transition), immediately after `writeWait` returns
`m_nextReaders` is 0, the transition marker `m_writing` is 0, and
`currentEpoch()` equals the epoch announced by that transition. -/
theorem c1_writeWait_post {s u : RcuLock} {e : Nat} {w : Bool}
    (h : WriteWaitExec s u e w) :
    u.m_nextReaders = 0 ∧ u.m_writing = 0 ∧ currentEpoch u = e := by
  cases h with
  | noWait h0 hn hr =>
      exact ⟨rfl, rfl, (readerSteps_epoch hr).trans (nextEpoch_epoch hn)⟩
  | waited h0 hn hr hc =>
      exact ⟨rfl, rfl, (readerSteps_epoch hr).trans (nextEpoch_epoch hn)⟩

/-- Witness for C1: the transition from the constructor state with no
interleaved readers, announcing epoch 2. -/
theorem c1_witness :
    (moveNextToCurrentEpoch ⟨2, 2, 0, 0⟩).m_nextReaders = 0 ∧
    (moveNextToCurrentEpoch ⟨2, 2, 0, 0⟩).m_writing = 0 ∧
    currentEpoch (moveNextToCurrentEpoch ⟨2, 2, 0, 0⟩) = 2 := by
  have hn : nextEpoch init = (2, ⟨2, 2, 0, 0⟩) := by decide
  exact c1_writeWait_post
    (WriteWaitExec.noWait (by decide) hn Relation.ReflTransGen.refl)

/-- C2: in every reachable state, `readBegin` increments exactly one
counter and returns the matching epoch: if a transition is in flight
(`m_writing ≠ 0`) it increments `m_nextReaders` and returns the marker
value; otherwise it increments `m_currentReaders` and returns the live
epoch.  The returned state shows the other counter untouched. -/
theorem c2_readBegin_branches (s : RcuLock) (h : Reachable s) :
    (s.m_writing ≠ 0 →
      readBegin s = some (s.m_writing,
        { s with m_nextReaders := s.m_nextReaders + 1 })) ∧
    (s.m_writing = 0 →
      readBegin s = some (currentEpoch s,
        { s with m_currentReaders := s.m_currentReaders + 1 })) := by
  obtain ⟨h1, h2, h3⟩ := reachable_inv h
  constructor
  · intro hw
    simp only [readBegin, currentEpoch]
    rw [if_pos hw]
  · intro hw
    have hn : ¬ 0 < s.m_nextReaders := by
      have := h3 hw
      omega
    simp only [readBegin, currentEpoch]
    rw [if_neg (fun hne => hne hw), if_neg hn]

/-- Witness for C2: `readBegin` in the constructor state takes the
quiescent branch. -/
theorem c2_witness :
    readBegin init = some (currentEpoch init,
      { init with m_currentReaders := init.m_currentReaders + 1 }) :=
  (c2_readBegin_branches init Relation.ReflTransGen.refl).2 rfl

/-- C3 counterexample: in the reachable state `⟨1, 0, 1, 0⟩` (one admitted
reader, no transition in flight), `readEnd 1` decrements
`m_currentReaders` to zero and calls `m_waiter.notify()` (the `true`
component) even though the transition marker is 0 — the source's
`decreaseAndTest` branch does not test `m_writing`, refuting "signals the
DrainSignal exactly when that decrement brings CurrentReaderCount to zero
and a transition is in flight". -/
theorem c3_counterexample :
    readEnd ⟨1, 0, 1, 0⟩ 1 = some (⟨1, 0, 0, 0⟩, true) ∧
    RcuLock.m_writing ⟨1, 0, 1, 0⟩ = 0 := by
  constructor <;> decide

/-- C3 (amended): for every epoch passed to a completed `readEnd`: if it
equals the marker value, `readEnd` decrements `m_nextReaders` and does not
signal; otherwise it decrements `m_currentReaders` and signals the
DrainSignal exactly when that decrement brings `m_currentReaders` to zero,
whether or not a transition is in flight. -/
theorem c3_readEnd_amended {s t : RcuLock} {e : Nat} {b : Bool}
    (h : readEnd s e = some (t, b)) :
    (e = s.m_writing →
      t = { s with m_nextReaders := s.m_nextReaders - 1 } ∧ b = false) ∧
    (e ≠ s.m_writing →
      t = { s with m_currentReaders := s.m_currentReaders - 1 } ∧
      (b = true ↔ s.m_currentReaders - 1 = 0)) := by
  rcases readEnd_cases h with ⟨hw, ht, hb⟩ | ⟨hw, hn, ht, hb⟩
  · exact ⟨fun _ => ⟨ht, hb⟩, fun hne => absurd hw hne⟩
  · refine ⟨fun heq => absurd heq hw, fun _ => ⟨ht, ?_⟩⟩
    subst hb
    simp only [decide_eq_true_eq]

/-- Witness for C3 (amended), at the concrete admitted-reader state. -/
theorem c3_witness :
    (⟨1, 0, 0, 0⟩ : RcuLock) = ⟨1, 0, (1 : Int) - 1, 0⟩ ∧
    (true = true ↔ (1 : Int) - 1 = 0) :=
  (c3_readEnd_amended
    (show readEnd ⟨1, 0, 1, 0⟩ 1 = some (⟨1, 0, 0, 0⟩, true) by decide)).2
    (by decide)

/-- C4 counterexample: from the post-announce state `⟨2, 2, 0, 3⟩` (marker
2, three next-generation readers) the merge's statement trace visits
`⟨2, 0, 0, 3⟩`: the marker is already reset to 0 while `m_nextReaders` is
still 3, refuting the claimed order (capture and zero `NextReaderCount`,
add into `CurrentReaderCount`, set the epoch, and only then reset the
marker). -/
theorem c4_counterexample : ¬ claimedMergeOrder ⟨2, 2, 0, 3⟩ := fun h =>
  absurd (h ⟨2, 0, 0, 3⟩ (by decide) rfl).1 (by decide)

/-- C4 (amended): the merge step resets the transition marker FIRST
(`m_writing = 0;` is the first statement of `moveNextToCurrentEpoch`), then
captures and zeroes `m_nextReaders`, then adds the captured value into
`m_currentReaders`; it never modifies the epoch — the epoch already took
the announced value during `nextEpoch`.  The last trace state is the result
of the atomic `moveNextToCurrentEpoch`. -/
theorem c4_merge_order (s : RcuLock) :
    mergeTrace s =
      [s,
       { s with m_writing := 0 },
       { s with m_writing := 0, m_nextReaders := 0 },
       moveNextToCurrentEpoch s] ∧
    (moveNextToCurrentEpoch s).m_epoch = s.m_epoch := by
  refine ⟨?_, rfl⟩
  simp [mergeTrace, moveNextToCurrentEpoch, sub_self]

/-- C5: a matched `readBegin`/`readEnd` pair run sequentially from any
reachable state with no writer step in between increments exactly one of
the two reader counters and then decrements that same counter, restoring
the entire lock state. -/
theorem c5_matched_pair {s s1 s2 : RcuLock} {e : Nat} {b : Bool}
    (h : Reachable s)
    (hb : readBegin s = some (e, s1))
    (he : readEnd s1 e = some (s2, b)) :
    s2 = s ∧
    ((s1.m_currentReaders = s.m_currentReaders + 1 ∧
      s1.m_nextReaders = s.m_nextReaders) ∨
     (s1.m_nextReaders = s.m_nextReaders + 1 ∧
      s1.m_currentReaders = s.m_currentReaders)) := by
  obtain ⟨h1, h2, h3⟩ := reachable_inv h
  rcases readBegin_cases hb with ⟨hw, heq, ht⟩ | ⟨hw, hn, heq, ht⟩
  · subst ht heq
    rcases readEnd_cases he with ⟨hw2, ht2, hb2⟩ | ⟨hw2, hn2, ht2, hb2⟩
    · subst ht2
      refine ⟨?_, Or.inr ⟨rfl, rfl⟩⟩
      show ({ s with m_nextReaders := s.m_nextReaders + 1 - 1 } : RcuLock) = s
      simp only [add_sub_cancel_right]
    · exact absurd rfl hw2
  · subst ht heq
    rcases readEnd_cases he with ⟨hw2, ht2, hb2⟩ | ⟨hw2, hn2, ht2, hb2⟩
    · have hew : s.m_epoch = s.m_writing := hw2
      rw [hw] at hew
      exact absurd hew h1
    · subst ht2
      refine ⟨?_, Or.inl ⟨rfl, rfl⟩⟩
      show ({ s with m_currentReaders := s.m_currentReaders + 1 - 1 } :
        RcuLock) = s
      simp only [add_sub_cancel_right]

/-- Witness for C5: the pair run from the constructor state. -/
theorem c5_witness :
    init = init ∧
    ((RcuLock.m_currentReaders ⟨1, 0, 1, 0⟩ = init.m_currentReaders + 1 ∧
      RcuLock.m_nextReaders ⟨1, 0, 1, 0⟩ = init.m_nextReaders) ∨
     (RcuLock.m_nextReaders ⟨1, 0, 1, 0⟩ = init.m_nextReaders + 1 ∧
      RcuLock.m_currentReaders ⟨1, 0, 1, 0⟩ = init.m_currentReaders)) :=
  c5_matched_pair Relation.ReflTransGen.refl
    (show readBegin init = some (1, ⟨1, 0, 1, 0⟩) by decide)
    (show readEnd ⟨1, 0, 1, 0⟩ 1 = some (init, true) by decide)

/-- C6: one writer transition strictly increases the epoch, except for the
single wrap step: from the maximum 32-bit value the announced epoch is 1,
never 0, and no transition ever produces epoch 0. -/
theorem c6_epoch_advance (s : RcuLock) (h : s.m_epoch < U32) :
    (nextEpoch s).2.m_epoch ≠ 0 ∧
    (s.m_epoch = U32 - 1 → (nextEpoch s).2.m_epoch = 1) ∧
    (s.m_epoch ≠ U32 - 1 →
      (nextEpoch s).2.m_epoch = s.m_epoch + 1 ∧
      s.m_epoch < (nextEpoch s).2.m_epoch) := by
  have h32 : U32 = 4294967296 := rfl
  rcases nextEpoch_cases s with ⟨hw, hn⟩ | ⟨hw, hn⟩ <;> rw [hn]
  · exact ⟨one_ne_zero, fun _ => rfl, fun hne => absurd hw hne⟩
  · have hmod : (s.m_epoch + 1) % U32 = s.m_epoch + 1 :=
      Nat.mod_eq_of_lt (by omega)
    refine ⟨?_, fun heq => absurd heq hw, fun _ => ⟨?_, ?_⟩⟩
    · show (s.m_epoch + 1) % U32 ≠ 0
      omega
    · show (s.m_epoch + 1) % U32 = s.m_epoch + 1
      exact hmod
    · show s.m_epoch < (s.m_epoch + 1) % U32
      omega

/-- Witness for C6 at the constructor state. -/
theorem c6_witness :
    (nextEpoch init).2.m_epoch ≠ 0 ∧
    (init.m_epoch = U32 - 1 → (nextEpoch init).2.m_epoch = 1) ∧
    (init.m_epoch ≠ U32 - 1 →
      (nextEpoch init).2.m_epoch = init.m_epoch + 1 ∧
      init.m_epoch < (nextEpoch init).2.m_epoch) :=
  c6_epoch_advance init (by decide)

/-- Concrete wrap check for the epoch: a transition at the maximum 32-bit
value announces epoch 1, not 0. -/
theorem nextEpoch_wrap_value :
    nextEpoch ⟨U32 - 1, 0, 0, 0⟩ = (1, ⟨1, 1, 0, 0⟩) := by decide

/-- C7 counterexample: after the announce step of a transition from the
constructor state (marker = 2, still before the merge), `currentEpoch()`
returns 2 — the newly announced epoch — and not the pre-transition epoch 1,
refuting "during a writer transition currentEpoch() still returns the old,
pre-transition epoch". -/
theorem c7_counterexample :
    nextEpoch init = (2, ⟨2, 2, 0, 0⟩) ∧
    RcuLock.m_writing ⟨2, 2, 0, 0⟩ ≠ 0 ∧
    currentEpoch ⟨2, 2, 0, 0⟩ = 2 ∧
    currentEpoch init = 1 := by
  refine ⟨?_, ?_, ?_, ?_⟩ <;> decide

/-- C7 (amended): `currentEpoch()` returns the `m_epoch` field, a pure
read with no side effect and no blocking; but `nextEpoch` advances
`m_epoch` already at announce time, so between announce and merge
`currentEpoch()` returns the newly announced epoch, which differs from the
pre-transition epoch. -/
theorem c7_currentEpoch_amended (s : RcuLock) (h : s.m_epoch < U32) :
    currentEpoch s = s.m_epoch ∧
    currentEpoch (nextEpoch s).2 = (nextEpoch s).1 ∧
    currentEpoch (nextEpoch s).2 ≠ s.m_epoch := by
  have h32 : U32 = 4294967296 := rfl
  refine ⟨rfl, ?_, ?_⟩ <;>
    rcases nextEpoch_cases s with ⟨hw, hn⟩ | ⟨hw, hn⟩ <;> rw [hn]
  · rfl
  · rfl
  · show (1 : Nat) ≠ s.m_epoch
    rw [hw]
    decide
  · have hmod : (s.m_epoch + 1) % U32 = s.m_epoch + 1 :=
      Nat.mod_eq_of_lt (by omega)
    show (s.m_epoch + 1) % U32 ≠ s.m_epoch
    omega

/-- Witness for C7 (amended) at the constructor state. -/
theorem c7_witness :
    currentEpoch init = init.m_epoch ∧
    currentEpoch (nextEpoch init).2 = (nextEpoch init).1 ∧
    currentEpoch (nextEpoch init).2 ≠ init.m_epoch :=
  c7_currentEpoch_amended init (by decide)

/-- C8: if the `m_currentReaders` snapshot taken before the announce is
zero, a completed `writeWait` never executes the blocking wait on the
condition variable (the `waited` flag is `false`): a write with no admitted
readers completes without blocking. -/
theorem c8_no_wait {s u : RcuLock} {e : Nat} {w : Bool}
    (h : WriteWaitExec s u e w) (h0 : s.m_currentReaders = 0) :
    w = false := by
  cases h with
  | noWait h1 hn hr => rfl
  | waited h1 hn hr hc =>
      rw [h0] at h1
      exact absurd h1 (lt_irrefl 0)

/-- Witness for C8: the no-reader transition from the constructor state. -/
theorem c8_witness : init.m_currentReaders = 0 ∧ (false : Bool) = false := by
  have hn : nextEpoch init = (2, ⟨2, 2, 0, 0⟩) := by decide
  exact ⟨rfl, c8_no_wait
    (WriteWaitExec.noWait (by decide) hn Relation.ReflTransGen.refl) rfl⟩

/-- C9: at most one writer holds WriterSerialization at a time — in every
reachable state of the multi-threaded system, any two threads inside the
`writeBegin` … `writeEnd` critical section (where the announce, drain and
merge steps run) are the same thread, so the transitions of distinct
writers never overlap. -/
theorem c9_writer_exclusion {n : Nat} {s : WriterSys n}
    (h : SysReachable s) (t1 t2 : Fin n)
    (h1 : s.phase t1 ≠ WriterPhase.idle)
    (h2 : s.phase t2 ≠ WriterPhase.idle) : t1 = t2 := by
  have hi := sysReachable_inv h
  have o1 := hi t1 h1
  have o2 := hi t2 h2
  rw [o1] at o2
  exact Option.some.inj o2

/-- Witness for C9: one writer thread after `writeBegin`. -/
theorem c9_witness : (0 : Fin 1) = 0 := by
  have hstep : SysStep (initSys 1)
      ⟨some 0, Function.update (initSys 1).phase 0 WriterPhase.locked,
        (initSys 1).lock⟩ :=
    SysStep.writeBegin 0 rfl rfl
  have hreach : SysReachable
      (⟨some 0, Function.update (initSys 1).phase 0 WriterPhase.locked,
        (initSys 1).lock⟩ : WriterSys 1) :=
    Relation.ReflTransGen.single hstep
  refine c9_writer_exclusion hreach 0 0 ?_ ?_ <;>
    · show Function.update (initSys 1).phase 0 WriterPhase.locked 0 ≠
        WriterPhase.idle
      rw [Function.update_same]
      decide

/-- C10: in every reachable state of the lock the epoch field is nonzero,
and `readBegin` returns a nonzero epoch in both of its branches. -/
theorem c10_epoch_nonzero {s : RcuLock} (h : Reachable s) :
    s.m_epoch ≠ 0 ∧
    ∀ (e : Nat) (t : RcuLock), readBegin s = some (e, t) → e ≠ 0 := by
  obtain ⟨h1, h2, h3⟩ := reachable_inv h
  refine ⟨h1, fun e t hb => ?_⟩
  rcases readBegin_cases hb with ⟨hw, heq, _⟩ | ⟨_, _, heq, _⟩
  · rw [heq]
    exact hw
  · rw [heq]
    exact h1

/-- Witness for C10 at the constructor state. -/
theorem c10_witness : RcuLock.m_epoch init ≠ 0 ∧ (1 : Nat) ≠ 0 :=
  ⟨(c10_epoch_nonzero Relation.ReflTransGen.refl).1,
   (c10_epoch_nonzero Relation.ReflTransGen.refl).2 1 ⟨1, 0, 1, 0⟩
     (by decide)⟩

end RcuVerify
